import Mathlib

/-!
Verification of the Crypto_DataAnalysis repository.

This file shallowly embeds the algorithmic core of the repository's five
Python scripts and proves/refutes the frozen claims about them:

* `fetchGo` / `getBitcoinData` — the backward-paging price fetch loop of
  `get_bitcoin_data` in `interactive_bitcoin_chart.py` and
  `plot_bitcoin_price.py` (the CryptoCompare paging loop).
* `btcPrepare` — the series preparation of `create_interactive_bitcoin_chart`
  (filter to on/after start; sort by date; drop exact-date duplicates keeping
  the first; `days_since_start = diff + 1`; keep `days_since_start ≥ 365`).
* `goldPrepare` / `goldPipeline` — the series preparation of
  `create_interactive_gold_chart` (filter to on/after start; sort by date;
  drop duplicate whole rows; `days_since_start = diff` with no `+ 1`; keep
  `days_since_start > 0`; row-count guard; then drop non-positive prices).
* `computeRow` / `verifyRun` — the lifetime-withdrawal verifier of
  `verify_lifetime_retirement.py` / `verify_lifetime_retirement_500k.py` and
  `generate_retirement_table_html`.
* `formatCurrency` / `parseCurrency` — the `f'${p:,.2f}'` currency formatting
  and the strip-`$`-and-`,`-then-parse reload used by the verifier.

Dates are modelled at day resolution as integers (day numbers), prices as
rationals (idealising Python float arithmetic), and the unbounded `while True`
fetch loop by explicit fuel with a distinguished `fuelOut` outcome.
-/

namespace CryptoDA

/-- A raw daily price sample: `{time, close}` from the Bitcoin fetch or an
indexed row of the gold download.  `time` is a date at day resolution. -/
structure PricePoint where
  time : Int
  price : ℚ
deriving DecidableEq

/-- A prepared row: the integer `days_since_start` coordinate and the price. -/
structure PrepRow where
  days : Int
  price : ℚ
deriving DecidableEq

/-- Sort key used by `sort_values('time')` / `sort_index()`: ascending date. -/
def byTime (a b : PricePoint) : Prop := a.time ≤ b.time

instance : DecidableRel byTime := fun a b => Int.decLe a.time b.time

instance : IsTotal PricePoint byTime := ⟨fun a b => Int.le_total a.time b.time⟩

instance : IsTrans PricePoint byTime := ⟨fun _ _ _ h h' => le_trans h h'⟩

/-- Worker for `dedupByTime`: drop every row whose date was already seen. -/
def dedupByTimeAux (seen : List Int) : List PricePoint → List PricePoint
  | [] => []
  | a :: rest =>
    if a.time ∈ seen then dedupByTimeAux seen rest
    else a :: dedupByTimeAux (a.time :: seen) rest

/-- `drop_duplicates(subset=['time'], keep='first')`: keep the first
occurrence of each date, dropping every later row with the same date. -/
def dedupByTime (l : List PricePoint) : List PricePoint := dedupByTimeAux [] l

/-- Worker for `dedupRows`: drop every row already seen as a whole. -/
def dedupRowsAux (seen : List PricePoint) : List PricePoint → List PricePoint
  | [] => []
  | a :: rest =>
    if a ∈ seen then dedupRowsAux seen rest
    else a :: dedupRowsAux (a :: seen) rest

/-- `drop_duplicates(keep='first')` with no subset: keep the first occurrence
of each whole row (the gold chart dedups full rows, not dates). -/
def dedupRows (l : List PricePoint) : List PricePoint := dedupRowsAux [] l

/-- Series preparation of `create_interactive_bitcoin_chart` /
`plot_bitcoin_price` (lines 119–128 resp. 63–78): keep rows with
`time >= start`; sort ascending by date; drop exact-date duplicates keeping
the first; set `days_since_start = (time - start) + 1`; keep rows with
`days_since_start >= 365`.  There is no non-positive-price filter. -/
def btcPrepare (start : Int) (raw : List PricePoint) : List PrepRow :=
  ((dedupByTime (List.insertionSort byTime (raw.filter (fun p => start ≤ p.time)))).map
    (fun p => PrepRow.mk (p.time - start + 1) p.price)).filter
    (fun r => 365 ≤ r.days)

/-- Gold series preparation through the days filter
(`create_interactive_gold_chart` lines 37–44): keep rows with
`time >= start`; sort ascending by date; drop duplicate whole rows keeping the
first; set `days_since_start = time - start` (no `+ 1`); keep rows with
`days_since_start > 0`. -/
def goldAfterDays (start : Int) (raw : List PricePoint) : List PrepRow :=
  ((dedupRows (List.insertionSort byTime (raw.filter (fun p => start ≤ p.time)))).map
    (fun p => PrepRow.mk (p.time - start) p.price)).filter
    (fun r => 0 < r.days)

/-- Gold series preparation including the final non-positive-price drop
(`create_interactive_gold_chart` line 52). -/
def goldPrepare (start : Int) (raw : List PricePoint) : List PrepRow :=
  (goldAfterDays start raw).filter (fun r => 0 < r.price)

/-- The gold pipeline around the regression input
(`create_interactive_gold_chart` lines 44–52): after the days filter it
returns early (`InsufficientData`, no regression) when fewer than 2 rows
remain — this guard runs BEFORE the positive-price drop — and otherwise
hands the price-filtered rows to the regression. -/
def goldPipeline (start : Int) (raw : List PricePoint) : Option (List PrepRow) :=
  if (goldAfterDays start raw).length < 2 then none
  else some (goldPrepare start raw)

/-- `create_interactive_bitcoin_chart` lines 115–117: the only early return
is on empty raw input; otherwise the script proceeds to fit the regression
regardless of how many prepared rows remain. -/
def btcAttemptsFit (raw : List PricePoint) : Bool := !raw.isEmpty

/-! ## Prediction grids (`np.arange` day-coordinate grids) -/

/-- `np.arange(lo, hi)` over integers: `lo, lo+1, …, hi-1` (empty if `hi ≤ lo`). -/
def arangeInt (lo hi : Int) : List Int :=
  (List.range (hi - lo).toNat).map (fun k => lo + Int.ofNat k)

/-- `create_interactive_gold_chart` lines 62–64:
`extended_days = np.arange(min_day, future_days)` followed by the caller-side
filter `extended_days[extended_days > 0]`; predictions are evaluated exactly
at the surviving coordinates (no error is ever raised for `d ≤ 0`). -/
def goldExtendedDaysLog (minDay futureDays : Int) : List Int :=
  (arangeInt minDay futureDays).filter (fun d => 0 < d)

/-- `create_interactive_bitcoin_chart` lines 141–142:
`extended_days = np.arange(df['days_since_start'].min(), future_days)`,
with no filter (the prepared minimum is already ≥ 365). -/
def btcExtendedDays (minDay futureDays : Int) : List Int :=
  arangeInt minDay futureDays

/-- `df['days_since_start'].min()` over a prepared series (0 on empty input,
which the scripts never reach the regression with). -/
def minDays : List PrepRow → Int
  | [] => 0
  | r :: rest => rest.foldl (fun m x => min m x.days) r.days

/-! ## The backward-paging fetch loop (`get_bitcoin_data`) -/

/-- One provider response to a page request at a cursor: either a transport
error / non-success API status, or a page of daily bars in ascending time
order (the page's first element is its oldest bar). -/
inductive ProviderReply where
  | failure
  | page (bars : List PricePoint)
deriving DecidableEq

/-- Outcome of a fetch run: `success` models `return all_data`, `aborted`
models `return None` on a transport/API error, and `fuelOut` marks that the
`while True` loop did not exit within the given fuel (modelling potential
nontermination). -/
inductive FetchResult where
  | success (bars : List PricePoint)
  | aborted
  | fuelOut
deriving DecidableEq

/-- The `while True` loop of `get_bitcoin_data`
(`interactive_bitcoin_chart.py` lines 17–44, `plot_bitcoin_price.py` lines
19–55): request a page at the cursor; on error return `None`; on an empty
page return the accumulation; otherwise append the page, move the cursor to
the page's oldest timestamp, and stop when that oldest timestamp is ≤ the
requested start timestamp. -/
def fetchGo (provider : Int → ProviderReply) (startTs : Int) :
    Nat → Int → List PricePoint → FetchResult
  | 0, _, _ => .fuelOut
  | fuel + 1, cursor, acc =>
    match provider cursor with
    | .failure => .aborted
    | .page [] => .success acc
    | .page (b :: rest) =>
      if b.time ≤ startTs then .success (acc ++ b :: rest)
      else fetchGo provider startTs fuel b.time (acc ++ b :: rest)

/-- `get_bitcoin_data`: run the paging loop with the cursor initialised to
the end timestamp and an empty accumulation. -/
def getBitcoinData (provider : Int → ProviderReply) (startTs endTs : Int)
    (fuel : Nat) : FetchResult :=
  fetchGo provider startTs fuel endTs []

/-- The cursors at which the loop issues page requests (same control flow as
`fetchGo`); used to state that an erroring request is made exactly once and
nothing is requested after it. -/
def fetchRequests (provider : Int → ProviderReply) (startTs : Int) :
    Nat → Int → List Int
  | 0, _ => []
  | fuel + 1, cursor =>
    cursor ::
      match provider cursor with
      | .failure => []
      | .page [] => []
      | .page (b :: _) =>
        if b.time ≤ startTs then [] else fetchRequests provider startTs fuel b.time

/-- A provider whose every page has its oldest timestamp equal to the cursor:
the loop makes no progress on it. -/
def stallProvider : Int → ProviderReply := fun c => .page [PricePoint.mk c 1]

/-! ## The retirement verifier (`verify_lifetime_retirement*.py`,
`generate_retirement_table_html`) -/

/-- `INFLATION_RATE = 0.07`. -/
def INFLATION_RATE : ℚ := 7 / 100

/-- `LIFESPAN = 100`. -/
def LIFESPAN : Int := 100

/-- `CURRENT_YEAR = 2025`. -/
def CURRENT_YEAR : Int := 2025

/-- `years_in_retirement = LIFESPAN - (current_age + (retirement_year -
CURRENT_YEAR))`. -/
def yearsInRetirement (currentAge retirementYear : Int) : Int :=
  LIFESPAN - (currentAge + (retirementYear - CURRENT_YEAR))

/-- The inner withdrawal loop: for each remaining year, look up the price of
the current withdrawal year; a missing year breaks the loop with
`calculation_complete = False` (modelled as `none`); otherwise add
`w * (1 + INFLATION_RATE) ^ i / price` and continue. -/
def withdrawGo (w : ℚ) (pm : Int → Option ℚ) : Int → Nat → Nat → Option ℚ
  | _, _, 0 => some 0
  | year, i, rem + 1 =>
    match pm year with
    | none => none
    | some price =>
      (withdrawGo w pm (year + 1) (i + 1) rem).map
        (fun rest => w * (1 + INFLATION_RATE) ^ i / price + rest)

/-- One row of the verification: `some 0` when `years_in_retirement ≤ 0`,
`none` when a required year is missing from the price map (the row is
incomplete), and otherwise the accumulated total BTC needed.  `w` is the
initial annual withdrawal (100000 resp. 500000 in the two scripts). -/
def computeRow (w : ℚ) (pm : Int → Option ℚ) (currentAge retirementYear : Int) :
    Option ℚ :=
  let n := yearsInRetirement currentAge retirementYear
  if n ≤ 0 then some 0
  else withdrawGo w pm retirementYear 0 n.toNat

/-- The `Match` column: `"N/A"` for an incomplete row, else `"Yes"` when the
computed total is within the tolerance of the image value, else `"No"`. -/
def matchLabel (tol : ℚ) (computed : Option ℚ) (image : ℚ) : String :=
  match computed with
  | none => "N/A"
  | some t => if |image - t| < tol then "Yes" else "No"

/-- The hard-coded reference table `image_data` (identical in
`verify_lifetime_retirement.py` and `generate_retirement_table_html`):
current age ↦ list of (retirement year, image BTC needed). -/
def imageData : List (Int × List (Int × ℚ)) :=
  [(5, [(2025, 10.96), (2030, 4.77), (2035, 2.77), (2040, 1.90), (2045, 1.44),
        (2050, 1.16), (2055, 0.97), (2060, 0.83), (2065, 0.72), (2070, 0.63), (2075, 0.56)]),
   (15, [(2025, 10.83), (2030, 4.64), (2035, 2.64), (2040, 1.77), (2045, 1.31),
        (2050, 1.03), (2055, 0.84), (2060, 0.70), (2065, 0.59), (2070, 0.50), (2075, 0.43)]),
   (25, [(2025, 10.71), (2030, 4.52), (2035, 2.52), (2040, 1.65), (2045, 1.19),
        (2050, 0.91), (2055, 0.72), (2060, 0.58), (2065, 0.47), (2070, 0.38), (2075, 0.31)]),
   (35, [(2025, 10.60), (2030, 4.41), (2035, 2.41), (2040, 1.54), (2045, 1.07),
        (2050, 0.79), (2055, 0.60), (2060, 0.47), (2065, 0.36), (2070, 0.27), (2075, 0.19)]),
   (45, [(2025, 10.47), (2030, 4.28), (2035, 2.28), (2040, 1.41), (2045, 0.95),
        (2050, 0.67), (2055, 0.48), (2060, 0.34), (2065, 0.23), (2070, 0.15), (2075, 0.07)]),
   (55, [(2025, 10.33), (2030, 4.14), (2035, 2.14), (2040, 1.27), (2045, 0.81),
        (2050, 0.53), (2055, 0.34), (2060, 0.20), (2065, 0.09), (2070, 0.00), (2075, 0.00)]),
   (65, [(2025, 10.13), (2030, 3.94), (2035, 1.94), (2040, 1.07), (2045, 0.61),
        (2050, 0.33), (2055, 0.14), (2060, 0.00), (2065, 0.00), (2070, 0.00), (2075, 0.00)]),
   (75, [(2025, 9.80), (2030, 3.61), (2035, 1.61), (2040, 0.74), (2045, 0.28),
        (2050, 0.00), (2055, 0.00), (2060, 0.00), (2065, 0.00), (2070, 0.00), (2075, 0.00)])]

/-- The whole verification run: every (current age, retirement year, image
value) row of the reference table is processed — an incomplete row only
breaks its own inner withdrawal loop, never the run. -/
def verifyRun (w tol : ℚ) (pm : Int → Option ℚ) : List (Int × Int × String) :=
  imageData.flatMap (fun ad =>
    ad.2.map (fun rv => (ad.1, rv.1, matchLabel tol (computeRow w pm ad.1 rv.1) rv.2)))

/-! ## Currency formatting and reload parsing

`f'${p:,.2f}'` (ForecastTableBuilder output, `interactive_bitcoin_chart.py`
lines 218–224) and the reload `replace({'\$': '', ',': ''}) … astype(float)`
(`verify_lifetime_retirement*.py` line 20). -/

/-- The character for a single decimal digit. -/
def digitChar (d : Nat) : Char := Char.ofNat (48 + d)

/-- Insert a thousands separator after every third digit of a little-endian
digit-character list (i.e. every third digit from the right of the number). -/
def commasLE : List Char → List Char
  | [] => []
  | [d1] => [d1]
  | [d1, d2] => [d1, d2]
  | [d1, d2, d3] => [d1, d2, d3]
  | d1 :: d2 :: d3 :: d4 :: rest => d1 :: d2 :: d3 :: ',' :: commasLE (d4 :: rest)

/-- The dollars part of `f'{p:,.2f}'`: the decimal digits of the integer
part, in display (big-endian) order, with thousands separators. -/
def dollarsChars (d : Nat) : List Char :=
  if d = 0 then ['0']
  else (commasLE ((Nat.digits 10 d).map digitChar)).reverse

/-- The cents part of `f'{p:.2f}'`: always exactly two digits. -/
def centsChars (r : Nat) : List Char := [digitChar (r / 10), digitChar (r % 10)]

/-- Format a whole number of cents the way `f'${p:,.2f}'` renders
`p = c / 100`: a dollar sign, the comma-separated dollars, a point, and two
cent digits. -/
def formatCents (c : Nat) : String :=
  String.mk ('$' :: dollarsChars (c / 100) ++ '.' :: centsChars (c % 100))

/-- `f'${p:,.2f}'` on a nonnegative price: round to the nearest cent and
render.  (Python rounds the shortest decimal form of the float; rounding to
nearest is the exact-arithmetic idealisation.) -/
def formatCurrency (x : ℚ) : String := formatCents (round (100 * x)).toNat

/-- Big-endian decimal digit characters to a natural number, the way
`float()` reads each side of the decimal point. -/
def natOfChars (cs : List Char) : Nat :=
  cs.foldl (fun acc ch => 10 * acc + (ch.toNat - 48)) 0

/-- The characters the reload keeps: everything except `$` and `,`. -/
def keepChar (ch : Char) : Bool := ¬(ch = '$' ∨ ch = ',')

/-- Not the decimal point (used to split at the first point). -/
def notDot (ch : Char) : Bool := ch ≠ '.'

/-- The reload parse: strip every `$` and `,`, split at the decimal point,
and read `intpart.fracpart` as a decimal number. -/
def parseCurrency (s : String) : ℚ :=
  let cs := s.data.filter keepChar
  let intPart := cs.takeWhile notDot
  let fracPart := (cs.dropWhile notDot).drop 1
  (natOfChars intPart : ℚ) + (natOfChars fracPart : ℚ) / 10 ^ fracPart.length

/-! ## Helper lemmas: series preparation -/

theorem dedupByTimeAux_sublist (seen : List Int) :
    ∀ l : List PricePoint, List.Sublist (dedupByTimeAux seen l) l
  | [] => List.Sublist.refl []
  | a :: rest => by
    rw [dedupByTimeAux]
    split
    · exact (dedupByTimeAux_sublist seen rest).cons a
    · exact (dedupByTimeAux_sublist (a.time :: seen) rest).cons₂ a

theorem dedupRowsAux_sublist (seen : List PricePoint) :
    ∀ l : List PricePoint, List.Sublist (dedupRowsAux seen l) l
  | [] => List.Sublist.refl []
  | a :: rest => by
    rw [dedupRowsAux]
    split
    · exact (dedupRowsAux_sublist seen rest).cons a
    · exact (dedupRowsAux_sublist (a :: seen) rest).cons₂ a

theorem dedupRows_sublist (l : List PricePoint) : List.Sublist (dedupRows l) l :=
  dedupRowsAux_sublist [] l

theorem time_not_seen_of_mem_dedupByTimeAux {seen : List Int} :
    ∀ {l : List PricePoint} {x : PricePoint},
      x ∈ dedupByTimeAux seen l → x.time ∉ seen
  | [], x => by simp [dedupByTimeAux]
  | a :: rest, x => by
    rw [dedupByTimeAux]
    split
    · exact fun h => time_not_seen_of_mem_dedupByTimeAux h
    · intro h
      rcases List.mem_cons.mp h with rfl | h'
      · assumption
      · intro hx
        exact time_not_seen_of_mem_dedupByTimeAux h' (List.mem_cons_of_mem _ hx)

theorem pairwise_lt_dedupByTimeAux (seen : List Int) :
    ∀ l : List PricePoint, l.Pairwise byTime →
      (dedupByTimeAux seen l).Pairwise (fun a b => a.time < b.time)
  | [] => fun _ => List.Pairwise.nil
  | a :: rest => by
    intro h
    rw [List.pairwise_cons] at h
    rw [dedupByTimeAux]
    split
    · exact pairwise_lt_dedupByTimeAux seen rest h.2
    · rw [List.pairwise_cons]
      refine ⟨fun b hb => ?_, pairwise_lt_dedupByTimeAux _ rest h.2⟩
      have hbr : b ∈ rest := (dedupByTimeAux_sublist _ rest).subset hb
      have hle : a.time ≤ b.time := h.1 b hbr
      have hne : b.time ∉ a.time :: seen := time_not_seen_of_mem_dedupByTimeAux hb
      have : b.time ≠ a.time := fun hEq => hne (hEq ▸ List.mem_cons_self _ _)
      omega

theorem pairwise_lt_dedupByTime {l : List PricePoint} (h : l.Pairwise byTime) :
    (dedupByTime l).Pairwise (fun a b => a.time < b.time) :=
  pairwise_lt_dedupByTimeAux [] l h

theorem btcPrepare_mem {start : Int} {raw : List PricePoint} {r : PrepRow}
    (h : r ∈ btcPrepare start raw) : 365 ≤ r.days := by
  have := List.of_mem_filter h
  simpa using this

theorem goldPrepare_mem {start : Int} {raw : List PricePoint} {r : PrepRow}
    (h : r ∈ goldPrepare start raw) : 1 ≤ r.days ∧ 0 < r.price := by
  have h1 := List.of_mem_filter h
  have h2 := List.mem_of_mem_filter h
  have h3 := List.of_mem_filter h2
  simp only [decide_eq_true_eq] at h1 h3
  exact ⟨h3, h1⟩

theorem btcPrepare_pairwise (start : Int) (raw : List PricePoint) :
    (btcPrepare start raw).Pairwise (fun a b => a.days < b.days) := by
  unfold btcPrepare
  refine List.Pairwise.filter _ ?_
  refine List.Pairwise.map _ (fun a b hab => ?_)
    (pairwise_lt_dedupByTime (List.sorted_insertionSort byTime _))
  show a.time - start + 1 < b.time - start + 1
  omega

theorem goldPrepare_pairwise (start : Int) (raw : List PricePoint) :
    (goldPrepare start raw).Pairwise (fun a b => a.days ≤ b.days) := by
  unfold goldPrepare goldAfterDays
  refine List.Pairwise.filter _ (List.Pairwise.filter _ ?_)
  refine List.Pairwise.map _ (fun a b hab => ?_)
    (List.Pairwise.sublist (dedupRows_sublist _) (List.sorted_insertionSort byTime _))
  show a.time - start ≤ b.time - start
  exact Int.sub_le_sub_right hab start

/-! ## Claim C2 -/

/-- C2, counterexample: the claim asserts that, in every preparation, rows
with non-positive price are dropped and every surviving row has price > 0.
The bitcoin-chart preparation has no such step: the raw point (day 400,
price 0) survives it with price 0. -/
theorem claim_C2_counterexample :
    btcPrepare 0 [PricePoint.mk 400 0] = [PrepRow.mk 401 0] ∧
      ¬ (0 : ℚ) < (PrepRow.mk 401 0).price := by
  decide

/-- C2 (amended): the bitcoin-chart preparation drops points strictly before
the start date, sorts ascending by date dropping exact-date duplicates
(keeping the first), assigns days_since_start = (date − start in whole
days) + 1, and drops rows below the floor 365 — with NO non-positive-price
drop, so its surviving rows satisfy days_since_start ≥ 365 only.  The
gold-chart preparation drops points before the start date, sorts by date and
drops duplicate whole rows (not exact-date duplicates), assigns
days_since_start = date − start (without the + 1), keeps days_since_start
> 0, and drops non-positive prices, so its surviving rows satisfy
days_since_start ≥ 1 and price > 0. -/
theorem claim_C2_prepare_postconditions :
    (∀ (start : Int) (raw : List PricePoint) (r : PrepRow),
        r ∈ btcPrepare start raw → 365 ≤ r.days) ∧
    (∀ (start : Int) (raw : List PricePoint) (r : PrepRow),
        r ∈ goldPrepare start raw → 1 ≤ r.days ∧ 0 < r.price) :=
  ⟨fun _ _ _ h => btcPrepare_mem h, fun _ _ _ h => goldPrepare_mem h⟩

/-- C2, witness: both postconditions applied at concrete surviving rows. -/
theorem claim_C2_witness :
    365 ≤ (PrepRow.mk 401 2).days ∧
      (1 ≤ (PrepRow.mk 5 1).days ∧ 0 < (PrepRow.mk 5 1).price) :=
  ⟨claim_C2_prepare_postconditions.1 0 [PricePoint.mk 400 2] (PrepRow.mk 401 2)
      (by decide),
   claim_C2_prepare_postconditions.2 0 [PricePoint.mk 5 1] (PrepRow.mk 5 1)
      (by decide)⟩

/-! ## Claim C3 -/

/-- C3, counterexample: the claim asserts strictly increasing, duplicate-free
days_since_start for every prepared series.  The gold-chart preparation
dedups whole rows, so two raw points on the same date with different prices
both survive, giving the duplicate day coordinates [5, 5]. -/
theorem claim_C3_counterexample :
    (goldPrepare 0 [PricePoint.mk 5 1, PricePoint.mk 5 2]).map PrepRow.days = [5, 5] ∧
      ¬ (goldPrepare 0 [PricePoint.mk 5 1, PricePoint.mk 5 2]).Pairwise
          (fun a b => a.days < b.days) := by
  decide

/-- C3 (amended): the bitcoin-chart preparation (which dedups by exact date)
always yields strictly increasing, duplicate-free days_since_start
coordinates; the gold-chart preparation (which dedups whole rows) yields
non-decreasing coordinates, and duplicates can occur when two raw rows share
a date but differ in price. -/
theorem claim_C3_days_ordering :
    (∀ (start : Int) (raw : List PricePoint),
        (btcPrepare start raw).Pairwise (fun a b => a.days < b.days)) ∧
    (∀ (start : Int) (raw : List PricePoint),
        (goldPrepare start raw).Pairwise (fun a b => a.days ≤ b.days)) :=
  ⟨btcPrepare_pairwise, goldPrepare_pairwise⟩

/-! ## Claim C4 -/

/-- C4, counterexample: the claim asserts that for every raw input, 0 or 1
prepared rows cause an InsufficientData failure and no regression is fitted.
The bitcoin chart script has no such guard: on the one-point raw input below
it prepares exactly 1 row, yet its only early return (empty raw input) does
not trigger, so it proceeds to the regression fit. -/
theorem claim_C4_counterexample :
    (btcPrepare 0 [PricePoint.mk 400 5]).length = 1 ∧
      btcAttemptsFit [PricePoint.mk 400 5] = true := by
  decide

/-- C4 (amended): only the gold-chart pipeline guards against small inputs:
it fails (returns with no regression fitted) exactly when fewer than 2 rows
remain after the days filter — a guard that runs before the positive-price
drop — and otherwise proceeds with the price-filtered rows; and when it
proceeds on exactly 2 prepared points with distinct day coordinates, the
log-log regression fit is well defined (a line passes exactly through both
log-points).  The bitcoin-chart script performs no such row-count check. -/
theorem claim_C4_insufficient_data :
    (∀ (start : Int) (raw : List PricePoint),
        (goldAfterDays start raw).length < 2 → goldPipeline start raw = none) ∧
    (∀ (start : Int) (raw : List PricePoint),
        2 ≤ (goldAfterDays start raw).length →
          goldPipeline start raw = some (goldPrepare start raw)) ∧
    (∀ (start : Int) (raw : List PricePoint) (r1 r2 : PrepRow),
        goldPipeline start raw = some [r1, r2] → r1.days ≠ r2.days →
          ∃ a b : ℝ,
            a + b * Real.log (r1.days : ℝ) = Real.log (r1.price : ℝ) ∧
            a + b * Real.log (r2.days : ℝ) = Real.log (r2.price : ℝ)) := by
  refine ⟨fun start raw h => if_pos h, fun start raw h => if_neg (by omega), ?_⟩
  intro start raw r1 r2 h hne
  have hmem : goldPrepare start raw = [r1, r2] := by
    by_cases hc : (goldAfterDays start raw).length < 2
    · simp [goldPipeline, hc] at h
    · simpa [goldPipeline, hc] using h
  have h1 : 1 ≤ r1.days ∧ 0 < r1.price :=
    goldPrepare_mem (by rw [hmem]; exact List.mem_cons_self _ _)
  have h2 : 1 ≤ r2.days ∧ 0 < r2.price :=
    goldPrepare_mem (by rw [hmem]; exact List.mem_cons_of_mem _ (List.mem_cons_self _ _))
  set x1 := Real.log (r1.days : ℝ) with hx1
  set x2 := Real.log (r2.days : ℝ) with hx2
  have hd1 : (0 : ℝ) < (r1.days : ℝ) := by exact_mod_cast lt_of_lt_of_le one_pos h1.1
  have hd2 : (0 : ℝ) < (r2.days : ℝ) := by exact_mod_cast lt_of_lt_of_le one_pos h2.1
  have hxne : x2 - x1 ≠ 0 := by
    have hlog : x1 ≠ x2 := by
      intro hEq
      apply hne
      have hdays : ((r1.days : ℝ)) = ((r2.days : ℝ)) :=
        Real.log_injOn_pos (Set.mem_Ioi.mpr hd1) (Set.mem_Ioi.mpr hd2) hEq
      exact_mod_cast hdays
    exact sub_ne_zero.mpr (Ne.symm hlog)
  set y1 := Real.log (r1.price : ℝ)
  set y2 := Real.log (r2.price : ℝ)
  refine ⟨y1 - (y2 - y1) / (x2 - x1) * x1, (y2 - y1) / (x2 - x1), by ring, ?_⟩
  have : y1 - (y2 - y1) / (x2 - x1) * x1 + (y2 - y1) / (x2 - x1) * x2 =
      y1 + (y2 - y1) / (x2 - x1) * (x2 - x1) := by ring
  rw [this, div_mul_cancel₀ _ hxne]
  ring

/-- C4, witness: the two-point gold input below passes the guard and admits
an exact two-point log-log fit. -/
theorem claim_C4_witness :
    goldPipeline 0 [PricePoint.mk 1 2, PricePoint.mk 2 3] =
        some [PrepRow.mk 1 2, PrepRow.mk 2 3] ∧
      ∃ a b : ℝ,
        a + b * Real.log ((PrepRow.mk 1 2).days : ℝ) =
            Real.log ((PrepRow.mk 1 2).price : ℝ) ∧
        a + b * Real.log ((PrepRow.mk 2 3).days : ℝ) =
            Real.log ((PrepRow.mk 2 3).price : ℝ) :=
  ⟨by decide,
   claim_C4_insufficient_data.2.2 0 [PricePoint.mk 1 2, PricePoint.mk 2 3]
     (PrepRow.mk 1 2) (PrepRow.mk 2 3) (by decide) (by decide)⟩

/-! ## Claim C9 -/

/-- C9, counterexample: the claim asserts that evaluating a prediction at a
day-coordinate d ≤ 0 fails with a ModelFitError.  In the gold chart the
requested grid from day −5 to day 3 contains −5 ≤ 0, yet nothing fails: the
caller silently filters the non-positive coordinates out and evaluation
proceeds on the remaining grid [1, 2]. -/
theorem claim_C9_counterexample :
    ((-5 : Int) ∈ arangeInt (-5) 3) ∧ goldExtendedDaysLog (-5) 3 = [1, 2] ∧
      (-5 : Int) ∉ goldExtendedDaysLog (-5) 3 := by
  decide

theorem minDays_le_of_forall {c : Int} :
    ∀ {l : List PrepRow}, l ≠ [] → (∀ r ∈ l, c ≤ r.days) → c ≤ minDays l := by
  have aux : ∀ (rest : List PrepRow) (m : Int), c ≤ m → (∀ x ∈ rest, c ≤ x.days) →
      c ≤ rest.foldl (fun m x => min m x.days) m := by
    intro rest
    induction rest with
    | nil => intro m hm _; exact hm
    | cons x xs ih =>
      intro m hm hall
      exact ih _ (le_min hm (hall x (List.mem_cons_self _ _)))
        (fun y hy => hall y (List.mem_cons_of_mem _ hy))
  intro l hne hall
  match l, hne with
  | r :: rest, _ =>
    exact aux rest r.days (hall r (List.mem_cons_self _ _))
      (fun y hy => hall y (List.mem_cons_of_mem _ hy))

theorem arangeInt_lo_le {lo hi d : Int} (h : d ∈ arangeInt lo hi) : lo ≤ d := by
  unfold arangeInt at h
  rcases List.mem_map.mp h with ⟨k, _, rfl⟩
  exact le_add_of_nonneg_right (Int.natCast_nonneg k)

/-- C9 (amended): no evaluation ever fails on a non-positive day-coordinate;
instead the callers ensure predictions are only produced for d > 0 — the
gold chart filters its extended grid with d > 0 before taking logs, and the
bitcoin chart starts its extended grid at the prepared series' minimum
days_since_start, which is ≥ 365. -/
theorem claim_C9_prediction_days_positive :
    (∀ (m f d : Int), d ∈ goldExtendedDaysLog m f → 0 < d) ∧
    (∀ (start f : Int) (raw : List PricePoint) (d : Int),
        btcPrepare start raw ≠ [] →
          d ∈ btcExtendedDays (minDays (btcPrepare start raw)) f → 0 < d) := by
  constructor
  · intro m f d hd
    have := List.of_mem_filter hd
    simpa using this
  · intro start f raw d hne hd
    have hmin : 365 ≤ minDays (btcPrepare start raw) :=
      minDays_le_of_forall hne (fun r hr => btcPrepare_mem hr)
    have := arangeInt_lo_le hd
    omega

/-- C9, witness: both grid positivity statements at concrete inputs. -/
theorem claim_C9_witness : (0 : Int) < 1 ∧ (0 : Int) < 401 :=
  ⟨claim_C9_prediction_days_positive.1 (-5) 3 1 (by decide),
   claim_C9_prediction_days_positive.2 0 403 [PricePoint.mk 400 2] 401
     (by decide) (by decide)⟩

/-! ## Claim C5 -/

/-- A provider used to refute the ordering part of C5: the page requested at
cursor 200 holds bars at times 150 and 200, every other request returns the
older page with bars at times 50 and 150. -/
def twoPageProvider : Int → ProviderReply := fun c =>
  if c = 200 then .page [PricePoint.mk 150 1, PricePoint.mk 200 1]
  else .page [PricePoint.mk 50 1, PricePoint.mk 150 1]

/-- C5, counterexample: the claim asserts a successful fetch returns an
ascending-by-time sequence.  Fetching start=100, end=200 against
`twoPageProvider` succeeds with the newest page first, i.e. times
[150, 200, 50, 150], which is not ascending (and repeats 150). -/
theorem claim_C5_counterexample :
    getBitcoinData twoPageProvider 100 200 10 =
        .success [PricePoint.mk 150 1, PricePoint.mk 200 1,
          PricePoint.mk 50 1, PricePoint.mk 150 1] ∧
      ¬ List.Pairwise (fun a b : PricePoint => a.time ≤ b.time)
          [PricePoint.mk 150 1, PricePoint.mk 200 1,
            PricePoint.mk 50 1, PricePoint.mk 150 1] := by
  decide

/-- C5 (amended): a successful fetch returns the provider's pages
concatenated in fetch order — newest page first, with previously accumulated
bars forming a prefix of the result — so the returned sequence is NOT
necessarily ascending by time (downstream preparation sorts it); and,
provided the provider never returns an empty page, a successful fetch
contains a bar with timestamp at or before the requested start (the loop
accumulates until the oldest returned timestamp reaches the start). -/
theorem claim_C5_fetch_coverage :
    ∀ (provider : Int → ProviderReply) (startTs : Int) (fuel : Nat)
      (cursor : Int) (acc l : List PricePoint),
      (∀ c, provider c ≠ .page []) →
      fetchGo provider startTs fuel cursor acc = .success l →
        (∃ t, l = acc ++ t) ∧ ∃ b ∈ l, b.time ≤ startTs := by
  intro provider startTs fuel
  induction fuel with
  | zero =>
    intro cursor acc l _ h
    rw [fetchGo] at h
    cases h
  | succ n ih =>
    intro cursor acc l hne h
    rw [fetchGo] at h
    split at h
    next => cases h
    next heq => exact absurd heq (hne cursor)
    next b rest heq =>
      split at h
      next hb =>
        cases h
        exact ⟨⟨b :: rest, rfl⟩, b, by simp, hb⟩
      next hb =>
        obtain ⟨⟨t, ht⟩, bb, hbb, hle⟩ := ih b.time (acc ++ b :: rest) l hne h
        exact ⟨⟨b :: rest ++ t, by simp [ht]⟩, bb, hbb, hle⟩

/-- C5, witness: a one-page provider whose page reaches back to the start.
The fetch succeeds, the empty initial accumulation is a prefix, and the
result covers the start timestamp. -/
theorem claim_C5_witness :
    (∃ t, [PricePoint.mk 0 1] = ([] : List PricePoint) ++ t) ∧
      ∃ b ∈ [PricePoint.mk 0 1], b.time ≤ 100 :=
  claim_C5_fetch_coverage (fun _ => .page [PricePoint.mk 0 1]) 100 5 200 []
    [PricePoint.mk 0 1] (fun c => by simp) (by decide)

/-! ## Claim C6 -/

/-- C6: if the page request at the current cursor fails (transport error or
non-success API status), the entire fetch returns None — modelled as
`.aborted`, with no partial accumulation surfaced regardless of `acc` — and
the failing cursor is requested exactly once with no request after it (no
retry). -/
theorem claim_C6_error_aborts :
    ∀ (provider : Int → ProviderReply) (startTs cursor : Int)
      (acc : List PricePoint) (fuel : Nat),
      provider cursor = .failure →
        fetchGo provider startTs (fuel + 1) cursor acc = .aborted ∧
          fetchRequests provider startTs (fuel + 1) cursor = [cursor] := by
  intro provider startTs cursor acc fuel h
  constructor
  · rw [fetchGo, h]
  · rw [fetchRequests, h]

/-- C6, witness: a provider that always fails aborts the whole fetch at the
first request. -/
theorem claim_C6_witness :
    fetchGo (fun _ => ProviderReply.failure) 0 5 100 [] = FetchResult.aborted ∧
      fetchRequests (fun _ => ProviderReply.failure) 0 5 100 = [100] :=
  claim_C6_error_aborts (fun _ => ProviderReply.failure) 0 100 [] 4 rfl

/-! ## Claim C10 -/

/-- C10: the paging loop terminates whenever every non-empty page's oldest
timestamp is ≤ the requested start or strictly below the cursor it was
requested at (fuel `(cursor − start).toNat + 1` suffices, so the run never
ends in `fuelOut`); and nothing in the loop forces progress — against
`stallProvider`, whose page's oldest timestamp always equals the cursor
while staying above the start, the loop exhausts any amount of fuel. -/
theorem claim_C10_termination :
    (∀ (provider : Int → ProviderReply) (startTs cursor : Int)
        (acc : List PricePoint) (fuel : Nat),
        (∀ (c : Int) (b : PricePoint) (rest : List PricePoint),
            provider c = .page (b :: rest) → b.time ≤ startTs ∨ b.time < c) →
        (cursor - startTs).toNat < fuel →
          fetchGo provider startTs fuel cursor acc ≠ .fuelOut) ∧
    (∀ (fuel : Nat) (acc : List PricePoint),
        fetchGo stallProvider 0 fuel 5 acc = .fuelOut) := by
  constructor
  · intro provider startTs cursor acc fuel
    induction fuel generalizing cursor acc with
    | zero => omega
    | succ n ih =>
      intro hprog hfuel
      rw [fetchGo]
      split
      next => exact fun h => by cases h
      next => exact fun h => by cases h
      next b rest heq =>
        split
        next => exact fun h => by cases h
        next hb =>
          refine ih b.time _ hprog ?_
          rcases hprog cursor b rest heq with hle | hlt
          · exact absurd hle hb
          · omega
  · intro fuel
    induction fuel with
    | zero => intro acc; rw [fetchGo]
    | succ n ih =>
      intro acc
      rw [fetchGo]
      show (match stallProvider 5 with
        | ProviderReply.failure => FetchResult.aborted
        | ProviderReply.page [] => FetchResult.success acc
        | ProviderReply.page (b :: rest) =>
          if b.time ≤ 0 then FetchResult.success (acc ++ b :: rest)
          else fetchGo stallProvider 0 n b.time (acc ++ b :: rest)) = FetchResult.fuelOut
      rw [show stallProvider 5 = ProviderReply.page [PricePoint.mk 5 1] from rfl]
      simpa using ih _

/-- C10, witness: a provider of empty pages exits immediately within the
fuel bound, while the stalling provider exhausts a concrete fuel of 7. -/
theorem claim_C10_witness :
    fetchGo (fun _ => ProviderReply.page []) 0 3 1 [] ≠ FetchResult.fuelOut ∧
      fetchGo stallProvider 0 7 5 [] = FetchResult.fuelOut :=
  ⟨claim_C10_termination.1 (fun _ => ProviderReply.page []) 0 1 [] 3
      (fun c b rest h => by simp at h) (by decide),
   claim_C10_termination.2 7 []⟩

/-! ## Helper lemmas: the withdrawal loop -/

theorem withdrawGo_eq_sum (w : ℚ) (pm : Int → Option ℚ) :
    ∀ (rem : Nat) (year : Int) (i : Nat),
      (∀ j < rem, (pm (year + Int.ofNat j)).isSome) →
      withdrawGo w pm year i rem =
        some (∑ j in Finset.range rem,
          w * (1 + INFLATION_RATE) ^ (i + j) / (pm (year + Int.ofNat j)).getD 0) := by
  intro rem
  induction rem with
  | zero => intro year i _; simp [withdrawGo]
  | succ n ih =>
    intro year i hall
    have h0 : (pm (year + Int.ofNat 0)).isSome := hall 0 (Nat.succ_pos n)
    rw [show year + Int.ofNat 0 = year by simp] at h0
    obtain ⟨price, hp⟩ := Option.isSome_iff_exists.mp h0
    have harg : ∀ j : Nat, year + Int.ofNat (j + 1) = (year + 1) + Int.ofNat j := by
      intro j
      simp [Int.ofNat_succ]
      ring
    have hrec := ih (year + 1) (i + 1) (fun j hj => by
      rw [← harg j]
      exact hall (j + 1) (by omega))
    rw [withdrawGo, hp, hrec]
    have hterm : ∀ j : Nat,
        w * (1 + INFLATION_RATE) ^ (i + (j + 1)) /
            (pm (year + Int.ofNat (j + 1))).getD 0 =
          w * (1 + INFLATION_RATE) ^ ((i + 1) + j) /
            (pm ((year + 1) + Int.ofNat j)).getD 0 := by
      intro j
      rw [harg j, show i + (j + 1) = (i + 1) + j by omega]
    refine congrArg some ?_
    rw [Finset.sum_range_succ']
    rw [Finset.sum_congr rfl (fun j _ => hterm j)]
    rw [show year + Int.ofNat 0 = year by simp, hp]
    simp only [Option.getD_some]
    ring

theorem withdrawGo_none (w : ℚ) (pm : Int → Option ℚ) :
    ∀ (rem : Nat) (year : Int) (i : Nat),
      (∃ j, j < rem ∧ pm (year + Int.ofNat j) = none) →
      withdrawGo w pm year i rem = none := by
  intro rem
  induction rem with
  | zero => intro year i ⟨j, hj, _⟩; omega
  | succ n ih =>
    intro year i ⟨j, hj, hnone⟩
    match j, hj, hnone with
    | 0, _, hnone =>
      rw [show year + Int.ofNat 0 = year by simp] at hnone
      rw [withdrawGo, hnone]
    | k + 1, hk, hnone =>
      cases hp : pm year with
      | none => rw [withdrawGo, hp]
      | some price =>
        rw [withdrawGo, hp]
        have : withdrawGo w pm (year + 1) (i + 1) n = none := by
          refine ih (year + 1) (i + 1) ⟨k, by omega, ?_⟩
          rw [show (year + 1) + Int.ofNat k = year + Int.ofNat (k + 1) by
            simp [Int.ofNat_succ]; ring]
          exact hnone
        rw [this]
        rfl

theorem verifyRun_length (w tol : ℚ) (pm : Int → Option ℚ) :
    (verifyRun w tol pm).length = 88 := rfl

/-! ## Claim C1 -/

/-- C1: for every initial withdrawal, price mapping and (current_age,
retirement_year) pair — in particular every pair of the hard-coded reference
table — the verifier computes years_in_retirement = LIFESPAN − (current_age
+ (retirement_year − CURRENT_YEAR)); when that is ≤ 0 the computed BTC
requirement is exactly 0 regardless of the price mapping, and otherwise,
provided every year retirement_year + j for j < years_in_retirement is
present, it equals the sum over j of
(initial_withdrawal · (1 + inflation)^j) / price_at_year(retirement_year + j). -/
theorem claim_C1_retirement_formula :
    ∀ (w : ℚ) (pm : Int → Option ℚ) (currentAge retirementYear : Int),
      (yearsInRetirement currentAge retirementYear ≤ 0 →
        computeRow w pm currentAge retirementYear = some 0) ∧
      (0 < yearsInRetirement currentAge retirementYear →
        (∀ j < (yearsInRetirement currentAge retirementYear).toNat,
            (pm (retirementYear + Int.ofNat j)).isSome) →
        computeRow w pm currentAge retirementYear =
          some (∑ j in Finset.range (yearsInRetirement currentAge retirementYear).toNat,
            w * (1 + INFLATION_RATE) ^ j /
              (pm (retirementYear + Int.ofNat j)).getD 0)) := by
  intro w pm currentAge retirementYear
  constructor
  · intro h
    rw [computeRow]
    simp only [h, if_pos]
  · intro h hall
    rw [computeRow]
    simp only [if_neg (by omega : ¬ yearsInRetirement currentAge retirementYear ≤ 0)]
    rw [withdrawGo_eq_sum w pm _ retirementYear 0 hall]
    simp

/-- C1, witness: the ≤ 0 branch at (current_age 80, retirement_year 2050),
where years_in_retirement = −5, and the positive branch at (current_age 5,
retirement_year 2025) with a price map covering 2025–2119. -/
theorem claim_C1_witness :
    computeRow 100000 (fun _ => none) 80 2050 = some 0 ∧
      computeRow 100000 (fun y => if 2025 ≤ y ∧ y ≤ 2119 then some 100 else none)
          5 2025 =
        some (∑ j in Finset.range 95,
          100000 * (1 + INFLATION_RATE) ^ j /
            ((fun y => if 2025 ≤ y ∧ y ≤ 2119 then some (100 : ℚ) else none)
                (2025 + Int.ofNat j)).getD 0) :=
  ⟨(claim_C1_retirement_formula 100000 (fun _ => none) 80 2050).1 (by decide),
   (claim_C1_retirement_formula 100000
       (fun y => if 2025 ≤ y ∧ y ≤ 2119 then some 100 else none) 5 2025).2
     (by decide) (by decide)⟩

/-! ## Claim C7 -/

/-- C7: whenever the withdrawal range of a row contains a year absent from
the price mapping, the verifier computes no partial total for that row
(`none`), reports its match as "N/A", and the run still produces all 88
rows of the reference table. -/
theorem claim_C7_missing_year :
    ∀ (w tol : ℚ) (pm : Int → Option ℚ) (currentAge retirementYear : Int) (img : ℚ),
      0 < yearsInRetirement currentAge retirementYear →
      (∃ j, j < (yearsInRetirement currentAge retirementYear).toNat ∧
          pm (retirementYear + Int.ofNat j) = none) →
        computeRow w pm currentAge retirementYear = none ∧
          matchLabel tol (computeRow w pm currentAge retirementYear) img = "N/A" ∧
          (verifyRun w tol pm).length = 88 := by
  intro w tol pm currentAge retirementYear img h hmissing
  have hnone : computeRow w pm currentAge retirementYear = none := by
    rw [computeRow]
    simp only [if_neg (by omega : ¬ yearsInRetirement currentAge retirementYear ≤ 0)]
    exact withdrawGo_none w pm _ retirementYear 0 hmissing
  refine ⟨hnone, ?_, verifyRun_length w tol pm⟩
  rw [hnone]
  rfl

/-- C7, witness: with a price map containing only 2025, the (age 5,
retirement 2025) row has 95 withdrawal years, year 2026 is missing, the row
is incomplete with match "N/A", and the run still has 88 rows. -/
theorem claim_C7_witness :
    computeRow 100000 (fun y => if y = 2025 then some 50 else none) 5 2025 = none ∧
      matchLabel (1 / 2)
          (computeRow 100000 (fun y => if y = 2025 then some 50 else none) 5 2025)
          10.96 = "N/A" ∧
      (verifyRun 100000 (1 / 2) (fun y => if y = 2025 then some 50 else none)).length
        = 88 :=
  claim_C7_missing_year 100000 (1 / 2) (fun y => if y = 2025 then some 50 else none)
    5 2025 10.96 (by decide) ⟨1, by decide, by decide⟩

/-! ## Helper lemmas: currency formatting -/

theorem digitChar_toNat {d : Nat} (h : d < 10) : (digitChar d).toNat = 48 + d := by
  interval_cases d <;> rfl

theorem digitChar_ne_dollar {d : Nat} (h : d < 10) : digitChar d ≠ '$' := by
  interval_cases d <;> decide

theorem digitChar_ne_comma {d : Nat} (h : d < 10) : digitChar d ≠ ',' := by
  interval_cases d <;> decide

theorem digitChar_ne_point {d : Nat} (h : d < 10) : digitChar d ≠ '.' := by
  interval_cases d <;> decide

theorem commasLE_filter (p : Char → Bool) (hcomma : p ',' = false) :
    ∀ l : List Char, (∀ ch ∈ l, p ch = true) → (commasLE l).filter p = l := by
  intro l
  induction l using commasLE.induct with
  | case1 =>
    intro _
    rfl
  | case2 d1 =>
    intro h
    simp [commasLE, List.filter_cons, h d1 (by simp)]
  | case3 d1 d2 =>
    intro h
    simp [commasLE, List.filter_cons, h d1 (by simp), h d2 (by simp)]
  | case4 d1 d2 d3 =>
    intro h
    simp [commasLE, List.filter_cons, h d1 (by simp), h d2 (by simp), h d3 (by simp)]
  | case5 d1 d2 d3 d4 rest ih =>
    intro h
    rw [commasLE]
    rw [List.filter_cons_of_pos (h d1 (by simp)), List.filter_cons_of_pos (h d2 (by simp)),
      List.filter_cons_of_pos (h d3 (by simp)),
      List.filter_cons_of_neg (by simp [hcomma])]
    rw [ih (fun ch hch => h ch (by simp at hch ⊢; tauto))]

theorem natOfChars_append_digit (l : List Char) (c : Char) :
    natOfChars (l ++ [c]) = 10 * natOfChars l + (c.toNat - 48) := by
  unfold natOfChars
  rw [List.foldl_append]
  rfl

theorem natOfChars_digitsLE :
    ∀ L : List Nat, (∀ x ∈ L, x < 10) →
      natOfChars ((L.map digitChar).reverse) = Nat.ofDigits 10 L := by
  intro L
  induction L with
  | nil => intro _; rfl
  | cons d L ih =>
    intro h
    rw [List.map_cons, List.reverse_cons, natOfChars_append_digit]
    rw [ih (fun x hx => h x (List.mem_cons_of_mem _ hx))]
    rw [digitChar_toNat (h d (List.mem_cons_self _ _))]
    rw [Nat.ofDigits_cons]
    omega

theorem natOfChars_centsChars {r : Nat} (h : r < 100) : natOfChars (centsChars r) = r := by
  show 10 * (10 * 0 + ((digitChar (r / 10)).toNat - 48)) + ((digitChar (r % 10)).toNat - 48) = r
  rw [digitChar_toNat (by omega), digitChar_toNat (by omega)]
  omega

/-- Splitting at the decimal point: `takeWhile` keeps exactly the prefix
before the first point and `dropWhile` starts at it. -/
theorem split_at_point (q : Char → Bool) :
    ∀ l1 : List Char, (∀ x ∈ l1, q x = true) → ∀ (c : Char), q c = false →
      ∀ l2 : List Char,
        (l1 ++ c :: l2).takeWhile q = l1 ∧ (l1 ++ c :: l2).dropWhile q = c :: l2 := by
  intro l1
  induction l1 with
  | nil =>
    intro _ c hc l2
    constructor <;> simp [List.takeWhile_cons, List.dropWhile_cons, hc]
  | cons a l ih =>
    intro h c hc l2
    have ha := h a (List.mem_cons_self _ _)
    have := ih (fun x hx => h x (List.mem_cons_of_mem _ hx)) c hc l2
    constructor
    · simp [List.takeWhile_cons, ha, this.1]
    · simp [List.dropWhile_cons, ha, this.2]

/-- The bare big-endian digit characters of the dollars part, with no
thousands separators. -/
def bareDigits (d : Nat) : List Char :=
  if d = 0 then ['0'] else ((Nat.digits 10 d).map digitChar).reverse

theorem bareDigits_mem {d : Nat} {ch : Char} (h : ch ∈ bareDigits d) :
    ∃ x, x < 10 ∧ ch = digitChar x := by
  unfold bareDigits at h
  split at h
  · refine ⟨0, by omega, ?_⟩
    simpa using h
  · rw [List.mem_reverse] at h
    rcases List.mem_map.mp h with ⟨x, hx, rfl⟩
    exact ⟨x, Nat.digits_lt_base (by omega) hx, rfl⟩

theorem keepChar_digit {x : Nat} (h : x < 10) : keepChar (digitChar x) = true := by
  simp [keepChar, digitChar_ne_dollar h, digitChar_ne_comma h]

theorem filter_dollarsChars (d : Nat) :
    (dollarsChars d).filter keepChar = bareDigits d := by
  unfold dollarsChars bareDigits
  split
  · decide
  · rw [List.filter_reverse]
    rw [commasLE_filter keepChar (by decide) _ (fun ch hch => ?_)]
    rcases List.mem_map.mp hch with ⟨x, hx, rfl⟩
    exact keepChar_digit (Nat.digits_lt_base (by omega) hx)

theorem natOfChars_bareDigits (d : Nat) : natOfChars (bareDigits d) = d := by
  unfold bareDigits
  split
  next h => rw [h]; rfl
  next =>
    rw [natOfChars_digitsLE _ (fun x hx => Nat.digits_lt_base (by omega) hx)]
    exact Nat.ofDigits_digits 10 d

/-- Parsing inverts formatting exactly on whole cents: the reload of a
formatted price recovers cents/100. -/
theorem parse_formatCents (c : Nat) : parseCurrency (formatCents c) = (c : ℚ) / 100 := by
  have h10 : c % 100 / 10 < 10 := by omega
  have h1 : c % 100 % 10 < 10 := by omega
  have hcs : (formatCents c).data.filter keepChar =
      bareDigits (c / 100) ++ '.' :: centsChars (c % 100) := by
    show (('$' :: (dollarsChars (c / 100) ++ '.' :: centsChars (c % 100))).filter keepChar)
      = _
    rw [List.filter_cons_of_neg (by decide), List.filter_append, filter_dollarsChars]
    congr 1
    rw [List.filter_cons_of_pos (by decide)]
    show _ :: List.filter keepChar [digitChar (c % 100 / 10), digitChar (c % 100 % 10)] = _
    rw [List.filter_cons_of_pos (keepChar_digit h10),
      List.filter_cons_of_pos (keepChar_digit h1)]
    rfl
  have hsplit := split_at_point notDot (bareDigits (c / 100))
    (fun x hx => by
      rcases bareDigits_mem hx with ⟨v, hv, rfl⟩
      simp [notDot, digitChar_ne_point hv])
    '.' (by decide) (centsChars (c % 100))
  show (natOfChars (((formatCents c).data.filter keepChar).takeWhile notDot) : ℚ) +
      (natOfChars ((((formatCents c).data.filter keepChar).dropWhile notDot).drop 1) : ℚ) /
        10 ^ ((((formatCents c).data.filter keepChar).dropWhile notDot).drop 1).length
    = (c : ℚ) / 100
  rw [hcs, hsplit.1, hsplit.2]
  simp only [List.drop_one, List.tail_cons]
  rw [natOfChars_bareDigits, natOfChars_centsChars (by omega)]
  show ((c / 100 : Nat) : ℚ) + ((c % 100 : Nat) : ℚ) / 10 ^ (2 : Nat) = (c : ℚ) / 100
  have hc : (c : ℚ) = 100 * ((c / 100 : Nat) : ℚ) + ((c % 100 : Nat) : ℚ) := by
    exact_mod_cast (Nat.div_add_mod c 100).symm
  rw [hc]
  ring

/-! ## Claim C8 -/

/-- C8: for every nonnegative price, formatting with a dollar sign,
thousands separators and two decimals, then stripping the dollar sign and
commas and parsing the number back, reproduces the price to cent precision
(the round trip error is at most 1/200 = 0.005). -/
theorem claim_C8_roundtrip :
    ∀ x : ℚ, 0 ≤ x → |parseCurrency (formatCurrency x) - x| ≤ 1 / 200 := by
  intro x hx
  unfold formatCurrency
  rw [parse_formatCents]
  have h0 : (0 : Int) ≤ round (100 * x) := by
    rw [round_eq]
    exact Int.le_floor.mpr (by push_cast; linarith)
  have hcast : (((round (100 * x)).toNat : Nat) : ℚ) = ((round (100 * x) : Int) : ℚ) := by
    exact_mod_cast Int.toNat_of_nonneg h0
  rw [hcast]
  have habs := abs_sub_round (100 * x)
  have hrw : ((round (100 * x) : Int) : ℚ) / 100 - x =
      -((100 * x - ((round (100 * x) : Int) : ℚ)) / 100) := by ring
  rw [hrw, abs_neg, abs_div]
  rw [show |(100 : ℚ)| = 100 by norm_num]
  linarith

/-- C8, witness: the round trip at the concrete price 1234.567, whose
formatted form is "$1,234.57". -/
theorem claim_C8_witness :
    (0 : ℚ) ≤ 1234567 / 1000 ∧
      |parseCurrency (formatCurrency (1234567 / 1000)) - 1234567 / 1000| ≤ 1 / 200 :=
  ⟨by norm_num, claim_C8_roundtrip (1234567 / 1000) (by norm_num)⟩

end CryptoDA
